import Mathlib

/-!
# lacc: intermediate representation and token numbering

A shallow embedding of `src/ir.h` and `src/preprocess.h`.

* C enumerations are kept as declaration lists (enumerator, optional
  initialiser) and numbered by the C rule, so each list can be compared
  with the header line by line.
* The macros `NOPERANDS` and `IS_COMPARISON` are functions on integers
  that return a C `int`.
* The CFG builder (`cfg_create`, `cfg_block_init`, `cfg_ir_append`,
  `cfg_finalize`) is only declared in `ir.h`; its bodies are modelled from
  the specification over an explicit store.
-/

namespace Lacc

/-! ## C enumerations -/

/-- C numbering of an enumerator list: an enumerator with an initialiser takes
that value, one without takes the value of its predecessor plus one, and
`next` is the value a leading enumerator without initialiser would take. -/
def enum_values_from {α : Type} : Int → List (α × Option Int) → List (α × Int)
  | _, [] => []
  | _, (x, some v) :: rest => (x, v) :: enum_values_from (v + 1) rest
  | next, (x, none) :: rest => (x, next) :: enum_values_from (next + 1) rest

/-- Values of a whole enumeration: the first enumerator defaults to 0. -/
def enum_values {α : Type} (decls : List (α × Option Int)) : List (α × Int) :=
  enum_values_from 0 decls

/-- An enumerator without initialiser: `X,` -/
def enum_next {α : Type} (x : α) : α × Option Int := (x, none)

/-- An enumerator with an integer initialiser: `X = v,` -/
def enum_init {α : Type} (x : α) (v : Int) : α × Option Int := (x, some v)

/-- An enumerator initialised with a character constant, `X = 'c',` whose
value is the character's ASCII code. -/
def enum_char {α : Type} (x : α) (c : Char) : α × Option Int :=
  (x, some (Int.ofNat c.toNat))

/-! ## `enum optype` (ir.h) -/

/-- Three address code operation types. -/
inductive optype where
  | IR_PARAM
  | IR_ASSIGN
  | IR_DEREF
  | IR_ADDR
  | IR_CALL
  | IR_CAST
  | IR_OP_ADD
  | IR_OP_SUB
  | IR_OP_MUL
  | IR_OP_DIV
  | IR_OP_MOD
  | IR_OP_AND
  | IR_OP_OR
  | IR_OP_XOR
  | IR_OP_SHL
  | IR_OP_SHR
  | IR_OP_EQ
  | IR_OP_GE
  | IR_OP_GT
  | IR_VA_START
  | IR_VA_ARG
  deriving DecidableEq, Repr

/-- The enumerator list of `enum optype`, in declaration order; none of the
enumerators has an initialiser. -/
def optype_enum : List (optype × Option Int) :=
  [ enum_next optype.IR_PARAM,
    enum_next optype.IR_ASSIGN,
    enum_next optype.IR_DEREF,
    enum_next optype.IR_ADDR,
    enum_next optype.IR_CALL,
    enum_next optype.IR_CAST,
    enum_next optype.IR_OP_ADD,
    enum_next optype.IR_OP_SUB,
    enum_next optype.IR_OP_MUL,
    enum_next optype.IR_OP_DIV,
    enum_next optype.IR_OP_MOD,
    enum_next optype.IR_OP_AND,
    enum_next optype.IR_OP_OR,
    enum_next optype.IR_OP_XOR,
    enum_next optype.IR_OP_SHL,
    enum_next optype.IR_OP_SHR,
    enum_next optype.IR_OP_EQ,
    enum_next optype.IR_OP_GE,
    enum_next optype.IR_OP_GT,
    enum_next optype.IR_VA_START,
    enum_next optype.IR_VA_ARG ]

/-- Numeric value of an opcode. -/
def optype.val (t : optype) : Int :=
  ((enum_values optype_enum).lookup t).getD 0

/-- Every opcode, in declaration order. -/
def optype.all : List optype := optype_enum.map Prod.fst

/-! ## `enum token` (preprocess.h) -/

/-- Token types of the lexer and preprocessor. -/
inductive token where
  | AUTO | BREAK | CASE | CHAR
  | CONST | CONTINUE | DEFAULT | DO
  | DOUBLE | ELSE | ENUM | EXTERN
  | FLOAT | FOR | GOTO | IF
  | INT | LONG | REGISTER | RETURN
  | SHORT | SIGNED | SIZEOF | STATIC
  | STRUCT | SWITCH | TYPEDEF | UNION
  | UNSIGNED | VOID | VOLATILE | WHILE
  | INTEGER_CONSTANT
  | IDENTIFIER
  | STRING
  | DOTS
  | LOGICAL_OR
  | LOGICAL_AND
  | LEQ
  | GEQ
  | EQ
  | NEQ
  | ARROW
  | INCREMENT
  | DECREMENT
  | LSHIFT
  | RSHIFT
  | MUL_ASSIGN
  | DIV_ASSIGN
  | MOD_ASSIGN
  | PLUS_ASSIGN
  | MINUS_ASSIGN
  | LSHIFT_ASSIGN
  | RSHIFT_ASSIGN
  | AND_ASSIGN
  | XOR_ASSIGN
  | OR_ASSIGN
  | OR
  | AND
  | XOR
  | MODULO
  | LT
  | GT
  | OPEN_PAREN
  | CLOSE_PAREN
  | SEMICOLON
  | OPEN_CURLY
  | CLOSE_CURLY
  | OPEN_BRACKET
  | CLOSE_BRACKET
  | COMMA
  | DOT
  | ASSIGN
  | STAR
  | SLASH
  | PLUS
  | MINUS
  | NOT
  | NEG
  | HASH
  | NEWLINE
  | SPACE
  | END
  deriving DecidableEq, Repr

/-- The enumerator list of `enum token`, in declaration order, each with the
initialiser it has in the header: `AUTO = 256`, none for the tokens that
follow it up to `OR_ASSIGN`, and a character constant for every token from
`OR` to `END`. -/
def token_enum : List (token × Option Int) :=
  [ enum_init token.AUTO 256, enum_next token.BREAK, enum_next token.CASE,
    enum_next token.CHAR,
    enum_next token.CONST, enum_next token.CONTINUE, enum_next token.DEFAULT,
    enum_next token.DO,
    enum_next token.DOUBLE, enum_next token.ELSE, enum_next token.ENUM,
    enum_next token.EXTERN,
    enum_next token.FLOAT, enum_next token.FOR, enum_next token.GOTO,
    enum_next token.IF,
    enum_next token.INT, enum_next token.LONG, enum_next token.REGISTER,
    enum_next token.RETURN,
    enum_next token.SHORT, enum_next token.SIGNED, enum_next token.SIZEOF,
    enum_next token.STATIC,
    enum_next token.STRUCT, enum_next token.SWITCH, enum_next token.TYPEDEF,
    enum_next token.UNION,
    enum_next token.UNSIGNED, enum_next token.VOID, enum_next token.VOLATILE,
    enum_next token.WHILE,
    enum_next token.INTEGER_CONSTANT,
    enum_next token.IDENTIFIER,
    enum_next token.STRING,
    enum_next token.DOTS,
    enum_next token.LOGICAL_OR,
    enum_next token.LOGICAL_AND,
    enum_next token.LEQ,
    enum_next token.GEQ,
    enum_next token.EQ,
    enum_next token.NEQ,
    enum_next token.ARROW,
    enum_next token.INCREMENT,
    enum_next token.DECREMENT,
    enum_next token.LSHIFT,
    enum_next token.RSHIFT,
    enum_next token.MUL_ASSIGN,
    enum_next token.DIV_ASSIGN,
    enum_next token.MOD_ASSIGN,
    enum_next token.PLUS_ASSIGN,
    enum_next token.MINUS_ASSIGN,
    enum_next token.LSHIFT_ASSIGN,
    enum_next token.RSHIFT_ASSIGN,
    enum_next token.AND_ASSIGN,
    enum_next token.XOR_ASSIGN,
    enum_next token.OR_ASSIGN,
    enum_char token.OR '|',
    enum_char token.AND '&',
    enum_char token.XOR '^',
    enum_char token.MODULO '%',
    enum_char token.LT '<',
    enum_char token.GT '>',
    enum_char token.OPEN_PAREN '(',
    enum_char token.CLOSE_PAREN ')',
    enum_char token.SEMICOLON ';',
    enum_char token.OPEN_CURLY '{',
    enum_char token.CLOSE_CURLY '}',
    enum_char token.OPEN_BRACKET '[',
    enum_char token.CLOSE_BRACKET ']',
    enum_char token.COMMA ',',
    enum_char token.DOT '.',
    enum_char token.ASSIGN '=',
    enum_char token.STAR '*',
    enum_char token.SLASH '/',
    enum_char token.PLUS '+',
    enum_char token.MINUS '-',
    enum_char token.NOT '!',
    enum_char token.NEG '~',
    enum_char token.HASH '#',
    enum_char token.NEWLINE '\n',
    enum_char token.SPACE ' ',
    enum_char token.END '$' ]

/-- Numeric value of a token. -/
def token.val (t : token) : Int :=
  ((enum_values token_enum).lookup t).getD 0

/-- Every token, in declaration order. -/
def token.all : List token := token_enum.map Prod.fst

/-- The multi-character tokens: the 32 keywords, the three token classes
`INTEGER_CONSTANT`, `IDENTIFIER`, `STRING`, and the 22 operators `DOTS` to
`OR_ASSIGN`; the first 57 enumerators of the header. -/
def token.multi_character : List token := token.all.take 57

/-- The single-character tokens `OR` to `END`: the remaining 26 enumerators. -/
def token.single_character : List token := token.all.drop 57

/-! ## The macros of ir.h -/

/-- The C relational operator `x > y`, of type `int`: 1 when it holds, else 0. -/
def c_gt (x y : Int) : Int := if x > y then 1 else 0

/-- `#define NOPERANDS(t) ((t) > 5 ? 2 : (t) > 1)` -/
def NOPERANDS (t : Int) : Int :=
  if c_gt t 5 ≠ 0 then 2 else c_gt t 1

/-- `#define IS_COMPARISON(t) ((t) > 15)` -/
def IS_COMPARISON (t : Int) : Int := c_gt t 15

/-! ## Data model of ir.h -/

/-- Addressing mode of a `var`: the anonymous enumeration inside `struct var`. -/
inductive var_kind where
  | DIRECT
  | DEREF
  | IMMEDIATE
  deriving DecidableEq, Repr

/-- `struct var`: a reference to a storage location or a direct value.
`type` and `symbol` point to objects of type.h and symbol.h and are kept as
nullable addresses; the union `value` is kept as the integer it holds. -/
structure var where
  type : Option Nat
  symbol : Option Nat
  kind : var_kind
  value : Int
  string : Option String
  offset : Int
  lvalue : Int
  deriving DecidableEq, Repr

/-- `struct op`: one three-address operation. -/
structure op where
  type : optype
  a : var
  b : var
  c : var
  deriving DecidableEq, Repr

/-- `struct block`: a CFG block. `code` with the count `n` is the
realloc-able list of operations; `jump` holds the two nullable branch
targets, as addresses of blocks. -/
structure block where
  label : String
  code : List op
  n : Int
  has_return_value : Int
  expr : var
  jump : Option Nat × Option Nat
  deriving DecidableEq, Repr

/-- `struct decl`: an external declaration list or a function definition.
`nodes` with `size` and `capacity` is the registry of the blocks of the
function, as addresses of blocks. -/
structure decl where
  «fun» : Option Nat
  head : Option Nat
  body : Option Nat
  locals_size : Int
  params : List Nat
  locals : List Nat
  nodes : List Nat
  size : Nat
  capacity : Nat
  deriving DecidableEq, Repr

/-! ## The CFG builder

`ir.h` declares `cfg_create`, `cfg_block_init`, `cfg_ir_append` and
`cfg_finalize`; their bodies are in a translation unit that is not part of
the sources at hand. The store below makes the state they act on explicit:
an address is an index into the store, a released cell is `none`. -/

/-- Modelled from the spec: the state of one compilation unit that the
builder acts on: the label counter, the block store and the decl store. -/
structure cfg_state where
  label_counter : Nat
  blocks : List (Option block)
  decls : List (Option decl)
  deriving DecidableEq, Repr

/-- Modelled from the spec: the state at the start of a compilation unit: no
label made yet, nothing allocated. -/
def cfg_init : cfg_state :=
  { label_counter := 0, blocks := [], decls := [] }

/-- The live block at an address, if any. -/
def cfg_state.block_at (s : cfg_state) (p : Nat) : Option block :=
  (s.blocks[p]?).join

/-- The live decl at an address, if any: a decl in the building state. -/
def cfg_state.decl_at (s : cfg_state) (d : Nat) : Option decl :=
  (s.decls[d]?).join

/-- The label of the live block at an address. -/
def cfg_state.label_at (s : cfg_state) (p : Nat) : Option String :=
  (s.block_at p).map block.label

/-- Modelled from the spec: the label text of the `n`-th block of a
compilation unit, in the format `.L<n>` the specification gives, with `n`
in decimal. The function that makes labels is not in the sources at hand. -/
def mklabel (n : Nat) : String := ".L" ++ Nat.repr n

/-- Modelled from the spec: `var_void`, only declared in ir.h: the sentinel
value with no type. The specification fixes no other field; they are zero
here. -/
def var_void : var :=
  { type := none, symbol := none, kind := var_kind.DIRECT, value := 0,
    string := none, offset := 0, lvalue := 0 }

/-- Modelled from the spec: the capacity of a node registry after making room
for one more entry. The specification says the registry grows by doubling
its capacity; the capacity 1 for a registry that has none yet is a choice of
this model. -/
def nodes_capacity (size capacity : Nat) : Nat :=
  if size < capacity then capacity else max 1 (2 * capacity)

/-- Modelled from the spec: `cfg_create`, only declared in ir.h. It makes a
new decl in the building state, with no function symbol, no blocks, no
parameters and no locals, and returns its address. -/
def cfg_create (s : cfg_state) : cfg_state × Nat :=
  let d : decl :=
    { «fun» := none, head := none, body := none, locals_size := 0,
      params := [], locals := [], nodes := [], size := 0, capacity := 0 }
  ({ s with decls := s.decls ++ [some d] }, s.decls.length)

/-- Modelled from the spec: the block that `cfg_block_init` returns: the
given label, empty code, `jump = {NULL, NULL}` and `has_return_value = 0`.
The specification does not fix `expr` of a new block; it is `var_void`
here. -/
def block_new (label : String) : block :=
  { label := label, code := [], n := 0, has_return_value := 0,
    expr := var_void, jump := (none, none) }

/-- Modelled from the spec: `cfg_block_init`, only declared in ir.h. For a
decl in the building state it allocates a block with the next label of the
compilation unit, empty code, `jump = {NULL, NULL}` and
`has_return_value = 0`, registers the block at the end of the node registry
of the decl, and returns the address of the block. On an address that
holds no decl in the building state the call is outside its contract and the
model has no result. -/
def cfg_block_init (s : cfg_state) (d : Nat) : Option (cfg_state × Nat) :=
  match s.decl_at d with
  | none => none
  | some dd =>
    let b : block := block_new (mklabel s.label_counter)
    let p := s.blocks.length
    let dd1 : decl :=
      { dd with
        nodes := dd.nodes ++ [p]
        size := dd.size + 1
        capacity := nodes_capacity dd.size dd.capacity }
    some ({ label_counter := s.label_counter + 1
            blocks := s.blocks ++ [some b]
            decls := s.decls.set d (some dd1) }, p)

/-- Modelled from the spec: the effect of `cfg_ir_append` on the block
itself: the operation goes to the end of the code and the count goes up by
one. The count is an unbounded integer here; the specification gives a
growable sequence with no bound. -/
def block.ir_append (b : block) (o : op) : block :=
  { b with code := b.code ++ [o], n := b.n + 1 }

/-- Modelled from the spec: `cfg_ir_append`, only declared in ir.h. It
appends one operation to the code of a live block. On an address that holds
no live block the call is outside its contract and the model has no
result. -/
def cfg_ir_append (s : cfg_state) (p : Nat) (o : op) : Option cfg_state :=
  match s.block_at p with
  | none => none
  | some b => some { s with blocks := s.blocks.set p (some (b.ir_append o)) }

/-- Modelled from the spec: `cfg_finalize`, only declared in ir.h. It
releases every block in the node registry of a decl in the building state,
then the decl itself. -/
def cfg_finalize (s : cfg_state) (d : Nat) : Option cfg_state :=
  match s.decl_at d with
  | none => none
  | some dd =>
    some { s with
           blocks := dd.nodes.foldl (fun bs p => bs.set p none) s.blocks
           decls := s.decls.set d none }

/-- Appending a sequence of operations to one block, first to last. -/
def cfg_ir_append_all (s : cfg_state) (p : Nat) : List op → Option cfg_state
  | [] => some s
  | o :: os => (cfg_ir_append s p o).bind fun s1 => cfg_ir_append_all s1 p os

/-- A call of the builder that constructs: the calls a parser makes while a
function is being built. -/
inductive cfg_call where
  | create
  | block_init (d : Nat)
  | ir_append (p : Nat) (o : op)
  deriving DecidableEq, Repr

/-- The state after one constructing call, when the call is within its
contract. -/
def cfg_step (s : cfg_state) : cfg_call → Option cfg_state
  | .create => some (cfg_create s).1
  | .block_init d => (cfg_block_init s d).map Prod.fst
  | .ir_append p o => cfg_ir_append s p o

/-- The state after a sequence of constructing calls. -/
def cfg_run (s : cfg_state) : List cfg_call → Option cfg_state
  | [] => some s
  | c :: cs => (cfg_step s c).bind fun s1 => cfg_run s1 cs

/-! ## The operation catalog, as the specification tabulates it -/

/-- Operand category of an opcode in the catalog of the specification. -/
inductive spec_category where
  | zero_dest
  | unary
  | binary_arith
  | binary_comparison
  | special
  deriving DecidableEq, Repr

/-- Specification side (catalog table): the category each opcode is listed
under. -/
def spec_category_of : optype → spec_category
  | .IR_PARAM => .zero_dest
  | .IR_ASSIGN | .IR_DEREF | .IR_ADDR | .IR_CALL | .IR_CAST => .unary
  | .IR_OP_ADD | .IR_OP_SUB | .IR_OP_MUL | .IR_OP_DIV | .IR_OP_MOD
  | .IR_OP_AND | .IR_OP_OR | .IR_OP_XOR | .IR_OP_SHL | .IR_OP_SHR => .binary_arith
  | .IR_OP_EQ | .IR_OP_GE | .IR_OP_GT => .binary_comparison
  | .IR_VA_START | .IR_VA_ARG => .special

/-- Specification side (catalog table): the number of operands besides the
destination `a` that an opcode uses. PARAM uses `a` only, the unary opcodes
`a, b`, the binary ones `a, b, c`; of the special opcodes VA_START uses `a`
and VA_ARG uses `a, b`. -/
def spec_source_operands : optype → Int
  | .IR_VA_START => 0
  | .IR_VA_ARG => 1
  | t =>
    match spec_category_of t with
    | .zero_dest => 0
    | .unary => 1
    | _ => 2

/-- Specification side (catalog table): whether an opcode is listed as a
comparison. -/
def spec_is_comparison (t : optype) : Bool :=
  spec_category_of t == .binary_comparison

/-! ## Auxiliary definitions for the proofs -/

/-- Value of a string of decimal digits. -/
def digits_value (l : List Char) : Nat :=
  l.foldl (fun a c => 10 * a + (c.toNat - 48)) 0

/-- Every label in the store was made from a counter value already used. -/
def labels_below_counter (s : cfg_state) : Prop :=
  ∀ p l, s.label_at p = some l → ∃ k, k < s.label_counter ∧ l = mklabel k

/-- An operation to append in examples: `IR_ASSIGN` with the operands given. -/
def example_op (a b : Int) : op :=
  { type := optype.IR_ASSIGN,
    a := { var_void with value := a, kind := var_kind.IMMEDIATE },
    b := { var_void with value := b, kind := var_kind.IMMEDIATE },
    c := var_void }

/-- A state with one decl in the building state and one block, reached by
`cfg_create` and `cfg_block_init`. -/
def example_state : cfg_state :=
  { label_counter := 1
    blocks := [some (block_new ".L0")]
    decls := [some { «fun» := none, head := none, body := none, locals_size := 0,
                     params := [], locals := [], nodes := [0], size := 1, capacity := 1 }] }

/-! ## Theorems: opcode numbering and the macros -/

/-- The enumerators of `enum optype` are numbered 0 to 20 in declaration
order: each opcode has an entry and the values are consecutive. -/
theorem optype_values :
    (enum_values optype_enum).map Prod.snd = (List.range 21).map Int.ofNat
    ∧ optype.all.map optype.val = (List.range 21).map Int.ofNat := by
  decide

/-- Values of `NOPERANDS` by threshold. -/
theorem NOPERANDS_eq (t : Int) :
    NOPERANDS t = if 5 < t then 2 else if 1 < t then 1 else 0 := by
  unfold NOPERANDS c_gt
  by_cases h5 : t > 5
  · simp [h5]
  · by_cases h1 : t > 1 <;> simp [h5, h1]

/-- Values of `IS_COMPARISON` by threshold. -/
theorem IS_COMPARISON_ne_zero (t : Int) : IS_COMPARISON t ≠ 0 ↔ 15 < t := by
  unfold IS_COMPARISON c_gt
  by_cases h : t > 15 <;> simp [h]

/-- C1 (evaluation at the failing input): `NOPERANDS(IR_ASSIGN)` is 0, the
count of `IR_PARAM`, while the catalog gives `IR_ASSIGN` one source operand
and the other four unary opcodes evaluate to 1. -/
theorem NOPERANDS_IR_ASSIGN_is_zero :
    optype.IR_ASSIGN.val = 1
    ∧ NOPERANDS optype.IR_ASSIGN.val = 0
    ∧ spec_source_operands optype.IR_ASSIGN = 1
    ∧ NOPERANDS optype.IR_PARAM.val = 0
    ∧ NOPERANDS optype.IR_DEREF.val = 1
    ∧ NOPERANDS optype.IR_ADDR.val = 1
    ∧ NOPERANDS optype.IR_CALL.val = 1
    ∧ NOPERANDS optype.IR_CAST.val = 1 := by
  decide

/-- Apart from `IR_ASSIGN`, `NOPERANDS` agrees with the catalog on every
opcode from `IR_PARAM` to `IR_OP_GT`. -/
theorem NOPERANDS_catalog_except_IR_ASSIGN (t : optype)
    (h : t.val ≤ optype.IR_OP_GT.val) (ht : t ≠ optype.IR_ASSIGN) :
    NOPERANDS t.val = spec_source_operands t := by
  cases t <;> revert h ht <;> decide

/-- C2: for every opcode from `IR_PARAM` to `IR_OP_GT`, `IS_COMPARISON` is
true (nonzero) exactly for `IR_OP_EQ`, `IR_OP_GE` and `IR_OP_GT`, which are
the opcodes the catalog lists as comparisons; so it is false for `IR_PARAM`,
the unary opcodes and the arithmetic and bitwise opcodes. -/
theorem IS_COMPARISON_catalog (t : optype)
    (h : optype.IR_PARAM.val ≤ t.val ∧ t.val ≤ optype.IR_OP_GT.val) :
    (IS_COMPARISON t.val ≠ 0 ↔
        t = optype.IR_OP_EQ ∨ t = optype.IR_OP_GE ∨ t = optype.IR_OP_GT)
    ∧ (IS_COMPARISON t.val ≠ 0 ↔ spec_is_comparison t = true)
    ∧ (IS_COMPARISON t.val = 0 ∨ IS_COMPARISON t.val = 1) := by
  cases t <;> revert h <;> decide

/-- Example: `IR_OP_GE` lies in the range and is a comparison. -/
theorem IS_COMPARISON_catalog_witness :
    (optype.IR_PARAM.val ≤ optype.IR_OP_GE.val
      ∧ optype.IR_OP_GE.val ≤ optype.IR_OP_GT.val)
    ∧ IS_COMPARISON optype.IR_OP_GE.val ≠ 0
    ∧ IS_COMPARISON optype.IR_OP_GE.val = 1 :=
  have h : optype.IR_PARAM.val ≤ optype.IR_OP_GE.val
      ∧ optype.IR_OP_GE.val ≤ optype.IR_OP_GT.val := by decide
  ⟨h, (IS_COMPARISON_catalog optype.IR_OP_GE h).1.mpr (Or.inr (Or.inl rfl)), by decide⟩

/-- C3: the macros classify both special opcodes as binary comparisons:
`IS_COMPARISON` is true and `NOPERANDS` is 2 for `IR_VA_START` and for
`IR_VA_ARG`, although the catalog gives `IR_VA_START` no operand besides `a`,
gives `IR_VA_ARG` one operand besides `a`, and lists neither as a
comparison. -/
theorem special_opcodes_misclassified :
    (IS_COMPARISON optype.IR_VA_START.val ≠ 0
      ∧ NOPERANDS optype.IR_VA_START.val = 2)
    ∧ (IS_COMPARISON optype.IR_VA_ARG.val ≠ 0
      ∧ NOPERANDS optype.IR_VA_ARG.val = 2)
    ∧ spec_source_operands optype.IR_VA_START = 0
    ∧ spec_source_operands optype.IR_VA_ARG = 1
    ∧ spec_is_comparison optype.IR_VA_START = false
    ∧ spec_is_comparison optype.IR_VA_ARG = false
    ∧ spec_category_of optype.IR_VA_START = spec_category.special
    ∧ spec_category_of optype.IR_VA_ARG = spec_category.special := by
  decide

/-- As a function of the numeric value alone, `NOPERANDS` is monotone and
takes only the values 0, 1 and 2: it can follow the operand counts of the
opcodes only where the enumeration lists them in rising order of count. -/
theorem NOPERANDS_mono (s t : Int) (h : s ≤ t) :
    NOPERANDS s ≤ NOPERANDS t
    ∧ (NOPERANDS t = 0 ∨ NOPERANDS t = 1 ∨ NOPERANDS t = 2) := by
  rw [NOPERANDS_eq s, NOPERANDS_eq t]
  split_ifs <;> omega

/-- C9: whatever `IS_COMPARISON` classifies as a comparison, `NOPERANDS`
classifies as binary: for every integer `t`, `IS_COMPARISON t` true implies
`NOPERANDS t = 2`; so no `t` with `NOPERANDS t < 2` is a comparison. -/
theorem comparison_is_binary (t : Int) (h : IS_COMPARISON t ≠ 0) :
    NOPERANDS t = 2 ∧ ¬ NOPERANDS t < 2 := by
  have h15 : 15 < t := (IS_COMPARISON_ne_zero t).mp h
  rw [NOPERANDS_eq t]
  have h5 : 5 < t := by omega
  simp [h5]

/-- Example: `IR_OP_EQ` is a comparison and counts as binary. -/
theorem comparison_is_binary_witness :
    IS_COMPARISON optype.IR_OP_EQ.val ≠ 0 ∧ NOPERANDS optype.IR_OP_EQ.val = 2 :=
  ⟨by decide, (comparison_is_binary optype.IR_OP_EQ.val (by decide)).1⟩

/-! ## Theorems: token numbering -/

/-- C7: token numbering skips the ASCII range. The multi-character tokens
(32 keywords `AUTO` to `WHILE`, `INTEGER_CONSTANT`, `IDENTIFIER`, `STRING`,
operators `DOTS` to `OR_ASSIGN`) are numbered consecutively from
`AUTO = 256` to `OR_ASSIGN = 312`, so each is at least 256; every
single-character token `OR` to `END` has the ASCII code of its character,
which is below 256, for instance `PLUS = 43`, `NEWLINE = 10`, `END = 36`. -/
theorem token_numbering_skips_ascii :
    (∀ t : token, t ∈ token.multi_character ∨ t ∈ token.single_character)
    ∧ token.multi_character =
      [ .AUTO, .BREAK, .CASE, .CHAR, .CONST, .CONTINUE, .DEFAULT, .DO,
        .DOUBLE, .ELSE, .ENUM, .EXTERN, .FLOAT, .FOR, .GOTO, .IF,
        .INT, .LONG, .REGISTER, .RETURN, .SHORT, .SIGNED, .SIZEOF, .STATIC,
        .STRUCT, .SWITCH, .TYPEDEF, .UNION, .UNSIGNED, .VOID, .VOLATILE, .WHILE,
        .INTEGER_CONSTANT, .IDENTIFIER, .STRING,
        .DOTS, .LOGICAL_OR, .LOGICAL_AND, .LEQ, .GEQ, .EQ, .NEQ, .ARROW,
        .INCREMENT, .DECREMENT, .LSHIFT, .RSHIFT,
        .MUL_ASSIGN, .DIV_ASSIGN, .MOD_ASSIGN, .PLUS_ASSIGN, .MINUS_ASSIGN,
        .LSHIFT_ASSIGN, .RSHIFT_ASSIGN, .AND_ASSIGN, .XOR_ASSIGN, .OR_ASSIGN ]
    ∧ token.multi_character.map token.val = (List.range' 256 57).map Int.ofNat
    ∧ token.AUTO.val = 256 ∧ token.WHILE.val = 287 ∧ token.OR_ASSIGN.val = 312
    ∧ token.multi_character.all (fun t => decide (256 ≤ t.val)) = true
    ∧ token.single_character =
      [ .OR, .AND, .XOR, .MODULO, .LT, .GT, .OPEN_PAREN, .CLOSE_PAREN,
        .SEMICOLON, .OPEN_CURLY, .CLOSE_CURLY, .OPEN_BRACKET, .CLOSE_BRACKET,
        .COMMA, .DOT, .ASSIGN, .STAR, .SLASH, .PLUS, .MINUS, .NOT, .NEG,
        .HASH, .NEWLINE, .SPACE, .END ]
    ∧ token.single_character.map token.val =
      [ 124, 38, 94, 37, 60, 62, 40, 41,
        59, 123, 125, 91, 93,
        44, 46, 61, 42, 47, 43, 45, 33, 126,
        35, 10, 32, 36 ]
    ∧ token.single_character.map token.val =
      ("|&^%<>();\x7b\x7d[],.=*/+-!~#\n $".toList.map fun c => Int.ofNat c.toNat)
    ∧ token.single_character.all (fun t => decide (0 ≤ t.val ∧ t.val < 256)) = true
    ∧ token.PLUS.val = 43 ∧ token.NEWLINE.val = 10 ∧ token.END.val = 36 := by
  refine ⟨fun t => ?_, ?_⟩
  · cases t <;> decide
  · decide

/-! ## Lemmas: labels are injective in the counter -/

theorem digits_value_snoc (l : List Char) (c : Char) :
    digits_value (l ++ [c]) = 10 * digits_value l + (c.toNat - 48) := by
  simp [digits_value, List.foldl_append]

theorem digitChar_value (m : Nat) (h : m < 10) : (Nat.digitChar m).toNat - 48 = m := by
  interval_cases m <;> rfl

/-- The accumulator of `Nat.toDigitsCore` ends up behind the digits made. -/
theorem toDigitsCore_acc (fuel : Nat) : ∀ (n : Nat) (acc : List Char),
    Nat.toDigitsCore 10 fuel n acc = Nat.toDigitsCore 10 fuel n [] ++ acc := by
  induction fuel with
  | zero => intro n acc; simp [Nat.toDigitsCore]
  | succ f ih =>
    intro n acc
    simp only [Nat.toDigitsCore]
    by_cases h0 : n / 10 = 0
    · simp [h0]
    · simp only [h0, if_false]
      rw [ih (n / 10) (_ :: acc), ih (n / 10) [_]]
      simp

/-- With enough fuel the decimal digits of `n` read back as `n`. -/
theorem digits_value_toDigitsCore (fuel : Nat) : ∀ n : Nat, n < fuel →
    digits_value (Nat.toDigitsCore 10 fuel n []) = n := by
  induction fuel with
  | zero => intro n h; omega
  | succ f ih =>
    intro n h
    have hd := digitChar_value (n % 10) (Nat.mod_lt _ (by decide))
    simp only [Nat.toDigitsCore]
    by_cases h0 : n / 10 = 0
    · simp only [h0, if_true]
      have h1 : digits_value ([] ++ [Nat.digitChar (n % 10)])
          = 10 * digits_value [] + ((Nat.digitChar (n % 10)).toNat - 48) :=
        digits_value_snoc [] _
      simp only [List.nil_append] at h1
      rw [h1, hd]
      simp only [digits_value, List.foldl_nil]
      omega
    · simp only [h0, if_false]
      rw [toDigitsCore_acc f (n / 10) [_], digits_value_snoc, ih (n / 10) (by omega), hd]
      omega

theorem repr_injective (a b : Nat) (h : Nat.repr a = Nat.repr b) : a = b := by
  have hl : Nat.toDigits 10 a = Nat.toDigits 10 b := by
    have := congrArg String.data h
    simpa [Nat.repr, List.asString] using this
  have ha := digits_value_toDigitsCore (a + 1) a (by omega)
  have hb := digits_value_toDigitsCore (b + 1) b (by omega)
  simp only [Nat.toDigits] at hl
  rw [hl, hb] at ha
  exact ha.symm

theorem mklabel_injective (a b : Nat) (h : mklabel a = mklabel b) : a = b := by
  apply repr_injective
  have := congrArg String.data h
  simp only [mklabel, String.data_append] at this
  exact String.ext (List.append_cancel_left this)


/-! ## Lemmas: the effect of one call on the block store -/

theorem block_at_length (s : cfg_state) : s.block_at s.blocks.length = none := by
  simp [cfg_state.block_at]

theorem block_at_lt (s : cfg_state) (p : Nat) (b : block) (h : s.block_at p = some b) :
    p < s.blocks.length := by
  by_contra hp
  have : s.blocks[p]? = none := List.getElem?_eq_none (by omega)
  simp [cfg_state.block_at, this] at h

/-- What `cfg_block_init` does to the state, when it succeeds. -/
theorem cfg_block_init_eq (s s1 : cfg_state) (d p : Nat)
    (h : cfg_block_init s d = some (s1, p)) :
    p = s.blocks.length
    ∧ s1.label_counter = s.label_counter + 1
    ∧ s1.blocks = s.blocks ++
        [some (block_new (mklabel s.label_counter))] := by
  unfold cfg_block_init at h
  cases hd : s.decl_at d with
  | none => simp [hd] at h
  | some dd =>
    simp only [hd, Option.some.injEq, Prod.mk.injEq] at h
    obtain ⟨hs, hp⟩ := h
    subst hs
    exact ⟨hp.symm, rfl, rfl⟩

theorem cfg_block_init_block_at_new (s s1 : cfg_state) (d p : Nat)
    (h : cfg_block_init s d = some (s1, p)) :
    s1.block_at p = some (block_new (mklabel s.label_counter)) := by
  obtain ⟨hp, _, hb⟩ := cfg_block_init_eq s s1 d p h
  simp [cfg_state.block_at, hb, hp]

theorem cfg_block_init_block_at_old (s s1 : cfg_state) (d p q : Nat)
    (h : cfg_block_init s d = some (s1, p)) (hq : q ≠ p) :
    s1.block_at q = s.block_at q := by
  obtain ⟨hp, _, hb⟩ := cfg_block_init_eq s s1 d p h
  subst hp
  unfold cfg_state.block_at
  rw [hb]
  rcases Nat.lt_or_gt_of_ne hq with hlt | hgt
  · rw [List.getElem?_append_left hlt]
  · have h1 : (s.blocks ++ [some (block_new (mklabel s.label_counter))])[q]? = none :=
      List.getElem?_eq_none (by simp; omega)
    have h2 : s.blocks[q]? = none := List.getElem?_eq_none (by omega)
    rw [h1, h2]

/-- What `cfg_ir_append` does to the state, when it succeeds. -/
theorem cfg_ir_append_eq (s s1 : cfg_state) (p : Nat) (o : op)
    (h : cfg_ir_append s p o = some s1) :
    ∃ b, s.block_at p = some b
      ∧ s1 = { s with blocks := s.blocks.set p (some (b.ir_append o)) } := by
  unfold cfg_ir_append at h
  cases hb : s.block_at p with
  | none => simp [hb] at h
  | some b =>
    simp only [hb, Option.some.injEq] at h
    exact ⟨b, rfl, h.symm⟩

theorem cfg_ir_append_block_at_same (s s1 : cfg_state) (p : Nat) (o : op) (b : block)
    (hb : s.block_at p = some b) (h : cfg_ir_append s p o = some s1) :
    s1.block_at p = some (b.ir_append o) := by
  obtain ⟨b1, hb1, hs⟩ := cfg_ir_append_eq s s1 p o h
  rw [hb] at hb1
  cases hb1
  have hlt := block_at_lt s p b hb
  subst hs
  simp [cfg_state.block_at, hlt]

theorem cfg_ir_append_block_at_other (s s1 : cfg_state) (p q : Nat) (o : op)
    (h : cfg_ir_append s p o = some s1) (hq : q ≠ p) :
    s1.block_at q = s.block_at q := by
  obtain ⟨b1, _, hs⟩ := cfg_ir_append_eq s s1 p o h
  subst hs
  simp [cfg_state.block_at, List.getElem?_set_ne (Ne.symm hq)]

theorem cfg_ir_append_label_at (s s1 : cfg_state) (p q : Nat) (o : op)
    (h : cfg_ir_append s p o = some s1) :
    s1.label_at q = s.label_at q ∧ s1.label_counter = s.label_counter := by
  obtain ⟨b1, hb1, hs⟩ := cfg_ir_append_eq s s1 p o h
  refine ⟨?_, by subst hs; rfl⟩
  by_cases hq : q = p
  · subst hq
    unfold cfg_state.label_at
    rw [cfg_ir_append_block_at_same s s1 q o b1 hb1 h, hb1]
    rfl
  · unfold cfg_state.label_at
    rw [cfg_ir_append_block_at_other s s1 p q o h hq]


theorem cfg_block_init_label_at (s s1 : cfg_state) (d p : Nat)
    (h : cfg_block_init s d = some (s1, p)) :
    s.label_at p = none
    ∧ s1.label_at p = some (mklabel s.label_counter)
    ∧ s1.label_counter = s.label_counter + 1
    ∧ ∀ q, q ≠ p → s1.label_at q = s.label_at q := by
  obtain ⟨hp, hc, _⟩ := cfg_block_init_eq s s1 d p h
  refine ⟨?_, ?_, hc, ?_⟩
  · rw [hp]
    simp [cfg_state.label_at, block_at_length]
  · simp [cfg_state.label_at, cfg_block_init_block_at_new s s1 d p h, block_new]
  · intro q hq
    simp [cfg_state.label_at, cfg_block_init_block_at_old s s1 d p q h hq]

/-! ## Lemmas: invariants of a sequence of calls -/

theorem labels_below_counter_init : labels_below_counter cfg_init := by
  intro p l h
  simp [cfg_state.label_at, cfg_state.block_at, cfg_init] at h

/-- A constructing call keeps the label of every block there is. -/
theorem cfg_step_label_at (s s1 : cfg_state) (c : cfg_call) (p : Nat) (l : String)
    (hl : s.label_at p = some l) (h : cfg_step s c = some s1) :
    s1.label_at p = some l := by
  cases c with
  | create =>
    simp only [cfg_step, cfg_create, Option.some.injEq] at h
    subst h
    exact hl
  | block_init d =>
    simp only [cfg_step, Option.map_eq_some', Prod.exists, exists_and_right, exists_eq_right] at h
    obtain ⟨q, hq⟩ := h
    obtain ⟨hnone, _, _, hold⟩ := cfg_block_init_label_at s s1 d q hq
    have hne : p ≠ q := by
      intro e
      rw [e, hnone] at hl
      cases hl
    rw [hold p hne]
    exact hl
  | ir_append q o =>
    simp only [cfg_step] at h
    rw [(cfg_ir_append_label_at s s1 q p o h).1]
    exact hl

theorem cfg_step_labels_below_counter (s s1 : cfg_state) (c : cfg_call)
    (hinv : labels_below_counter s) (h : cfg_step s c = some s1) :
    labels_below_counter s1 := by
  cases c with
  | create =>
    simp only [cfg_step, cfg_create, Option.some.injEq] at h
    subst h
    exact hinv
  | block_init d =>
    simp only [cfg_step, Option.map_eq_some', Prod.exists, exists_and_right, exists_eq_right] at h
    obtain ⟨q, hq⟩ := h
    obtain ⟨_, hnew, hc, hold⟩ := cfg_block_init_label_at s s1 d q hq
    intro p l hl
    by_cases hp : p = q
    · subst hp
      rw [hnew] at hl
      cases hl
      exact ⟨s.label_counter, by omega, rfl⟩
    · rw [hold p hp] at hl
      obtain ⟨k, hk, hkl⟩ := hinv p l hl
      exact ⟨k, by omega, hkl⟩
  | ir_append q o =>
    simp only [cfg_step] at h
    intro p l hl
    rw [(cfg_ir_append_label_at s s1 q p o h).1] at hl
    rw [(cfg_ir_append_label_at s s1 q p o h).2]
    exact hinv p l hl

theorem cfg_run_label_at : ∀ (cs : List cfg_call) (s s1 : cfg_state) (p : Nat) (l : String),
    s.label_at p = some l → cfg_run s cs = some s1 → s1.label_at p = some l := by
  intro cs
  induction cs with
  | nil =>
    intro s s1 p l hl h
    simp only [cfg_run, Option.some.injEq] at h
    subst h
    exact hl
  | cons c cs ih =>
    intro s s1 p l hl h
    simp only [cfg_run, Option.bind_eq_some] at h
    obtain ⟨s2, h2, hrest⟩ := h
    exact ih s2 s1 p l (cfg_step_label_at s s2 c p l hl h2) hrest

theorem cfg_run_labels_below_counter : ∀ (cs : List cfg_call) (s s1 : cfg_state),
    labels_below_counter s → cfg_run s cs = some s1 → labels_below_counter s1 := by
  intro cs
  induction cs with
  | nil =>
    intro s s1 hinv h
    simp only [cfg_run, Option.some.injEq] at h
    subst h
    exact hinv
  | cons c cs ih =>
    intro s s1 hinv h
    simp only [cfg_run, Option.bind_eq_some] at h
    obtain ⟨s2, h2, hrest⟩ := h
    exact ih s2 s1 (cfg_step_labels_below_counter s s2 c hinv h2) hrest


theorem cfg_ir_append_all_block_at (p : Nat) : ∀ (os : List op) (s : cfg_state) (b : block),
    s.block_at p = some b →
    ∃ s2, cfg_ir_append_all s p os = some s2
      ∧ s2.block_at p = some { b with code := b.code ++ os, n := b.n + os.length } := by
  intro os
  induction os with
  | nil =>
    intro s b hb
    exact ⟨s, rfl, by simpa using hb⟩
  | cons o os ih =>
    intro s b hb
    have h1 : cfg_ir_append s p o
        = some { s with blocks := s.blocks.set p (some (b.ir_append o)) } := by
      simp [cfg_ir_append, hb]
    obtain ⟨s2, hs2, hb2⟩ := ih _ (b.ir_append o) (cfg_ir_append_block_at_same s _ p o b hb h1)
    refine ⟨s2, by simp [cfg_ir_append_all, h1, hs2], ?_⟩
    rw [hb2]
    simp only [block.ir_append, List.append_assoc, List.singleton_append, List.length_cons,
      Nat.cast_add, Nat.cast_one, Option.some.injEq, block.mk.injEq, true_and, and_true]
    omega

/-- C4: `cfg_ir_append` preserves program order. For a live block `b` at
address `p` and an operation `o`, the call succeeds and afterwards the code of
the block is the previous code followed by `o`, the count `n` is one more, and
`label`, `expr`, `has_return_value` and `jump` are as before; appending a
sequence `os` extends the code by `os` in order; so on a block just returned
by `cfg_block_init` the code read back is exactly `os`, with `n` its
length. -/
theorem cfg_ir_append_preserves_order (s : cfg_state) (p : Nat) (b : block) (o : op)
    (os : List op) (hb : s.block_at p = some b) :
    (∃ s1 b1, cfg_ir_append s p o = some s1 ∧ s1.block_at p = some b1
      ∧ b1.code = b.code ++ [o] ∧ b1.n = b.n + 1
      ∧ b1.label = b.label ∧ b1.expr = b.expr
      ∧ b1.has_return_value = b.has_return_value ∧ b1.jump = b.jump)
    ∧ (∃ s2 b2, cfg_ir_append_all s p os = some s2 ∧ s2.block_at p = some b2
      ∧ b2.code = b.code ++ os ∧ b2.n = b.n + os.length
      ∧ b2.label = b.label ∧ b2.expr = b.expr
      ∧ b2.has_return_value = b.has_return_value ∧ b2.jump = b.jump)
    ∧ (∀ s0 d, cfg_block_init s0 d = some (s, p) →
        ∃ s2 b2, cfg_ir_append_all s p os = some s2 ∧ s2.block_at p = some b2
          ∧ b2.code = os ∧ b2.n = os.length) := by
  have h1 : cfg_ir_append s p o
      = some { s with blocks := s.blocks.set p (some (b.ir_append o)) } := by
    simp [cfg_ir_append, hb]
  obtain ⟨s2, hs2, hb2⟩ := cfg_ir_append_all_block_at p os s b hb
  refine ⟨⟨_, b.ir_append o, h1, cfg_ir_append_block_at_same s _ p o b hb h1,
      rfl, rfl, rfl, rfl, rfl, rfl⟩,
    ⟨s2, _, hs2, hb2, rfl, rfl, rfl, rfl, rfl, rfl⟩, ?_⟩
  intro s0 d hinit
  have hnew := cfg_block_init_block_at_new s0 s d p hinit
  rw [hb] at hnew
  simp only [Option.some.injEq] at hnew
  refine ⟨s2, _, hs2, hb2, ?_, ?_⟩
  · simp [hnew, block_new]
  · simp [hnew, block_new]

/-- Example: on the block of `example_state`, which `cfg_block_init`
returned, appending two operations gives back the two in order. -/
theorem cfg_ir_append_preserves_order_witness :
    example_state.block_at 0 = some (block_new ".L0")
    ∧ cfg_block_init (cfg_create cfg_init).1 0 = some (example_state, 0)
    ∧ ∃ s2 b2, cfg_ir_append_all example_state 0 [example_op 1 2, example_op 3 4] = some s2
        ∧ s2.block_at 0 = some b2
        ∧ b2.code = [example_op 1 2, example_op 3 4] ∧ b2.n = 2 :=
  ⟨rfl, rfl,
    (cfg_ir_append_preserves_order example_state 0 (block_new ".L0") (example_op 1 2)
      [example_op 1 2, example_op 3 4] rfl).2.2 (cfg_create cfg_init).1 0 rfl⟩

/-- C5: for a decl `d` in the building state, `cfg_block_init` succeeds and
returns the address of a new block with empty code, `n = 0`,
`jump = {NULL, NULL}` and `has_return_value = 0`; the blocks there were are
unchanged; the node registry of `d` is the previous registry followed by the
new block, its size one more, and `fun`, `head`, `body`, `locals_size`,
`params` and `locals` of `d` are unchanged. -/
theorem cfg_block_init_registers (s : cfg_state) (d : Nat) (dd : decl)
    (hd : s.decl_at d = some dd) :
    ∃ s1 p b dd1, cfg_block_init s d = some (s1, p)
      ∧ s.block_at p = none ∧ (∀ q, q ≠ p → s1.block_at q = s.block_at q)
      ∧ s1.block_at p = some b
      ∧ b.code = [] ∧ b.n = 0 ∧ b.jump = (none, none) ∧ b.has_return_value = 0
      ∧ s1.decl_at d = some dd1
      ∧ dd1.nodes = dd.nodes ++ [p]
      ∧ dd1.nodes.length = dd.nodes.length + 1
      ∧ dd1.size = dd.size + 1
      ∧ dd1.«fun» = dd.«fun» ∧ dd1.head = dd.head ∧ dd1.body = dd.body
      ∧ dd1.locals_size = dd.locals_size
      ∧ dd1.params = dd.params ∧ dd1.locals = dd.locals := by
  have hlt : d < s.decls.length := by
    by_contra hp
    have : s.decls[d]? = none := List.getElem?_eq_none (by omega)
    simp [cfg_state.decl_at, this] at hd
  have h : cfg_block_init s d = some
      ({ label_counter := s.label_counter + 1
         blocks := s.blocks ++ [some (block_new (mklabel s.label_counter))]
         decls := s.decls.set d (some { dd with
            nodes := dd.nodes ++ [s.blocks.length]
            size := dd.size + 1
            capacity := nodes_capacity dd.size dd.capacity }) }, s.blocks.length) := by
    simp [cfg_block_init, hd]
  refine ⟨_, _, _, { dd with
      nodes := dd.nodes ++ [s.blocks.length]
      size := dd.size + 1
      capacity := nodes_capacity dd.size dd.capacity }, h, block_at_length s,
    fun q hq => cfg_block_init_block_at_old s _ d _ q h hq,
    cfg_block_init_block_at_new s _ d _ h, rfl, rfl, rfl, rfl, ?_,
    rfl, ?_, rfl, rfl, rfl, rfl, rfl, rfl, rfl⟩
  · simp [cfg_state.decl_at, hlt]
  · simp

/-- Example: `cfg_block_init` on the decl of `example_state`, whose
registry holds one block, returns a second block and registers it. -/
theorem cfg_block_init_registers_witness :
    (example_state.decl_at 0).map decl.nodes = some [0]
    ∧ ∃ s1 p b dd1, cfg_block_init example_state 0 = some (s1, p)
        ∧ s1.block_at p = some b ∧ b.code = [] ∧ b.n = 0
        ∧ s1.decl_at 0 = some dd1 ∧ dd1.nodes = [0, p] ∧ dd1.size = 2 :=
  ⟨rfl,
    match cfg_block_init_registers example_state 0 _ rfl with
    | ⟨s1, p, b, dd1, h, _, _, hb, hc, hn, _, _, hdd, hnodes, _, hsize, _⟩ =>
      ⟨s1, p, b, dd1, h, hb, hc, hn, hdd, hnodes, hsize⟩⟩

/-- C6: block labels are unique and stable. In any sequence of `cfg_create`,
`cfg_block_init` and `cfg_ir_append` calls from the start of a compilation
unit, the blocks returned by two different `cfg_block_init` calls, on the
same decl or on different ones, are different blocks with different labels,
and the label of each is the same after every later call. -/
theorem block_labels_unique (cs1 cs2 cs3 : List cfg_call) (d1 d2 p1 p2 : Nat)
    (s0 s1 s2 s3 s4 : cfg_state)
    (h0 : cfg_run cfg_init cs1 = some s0)
    (hb1 : cfg_block_init s0 d1 = some (s1, p1))
    (h1 : cfg_run s1 cs2 = some s2)
    (hb2 : cfg_block_init s2 d2 = some (s3, p2))
    (h2 : cfg_run s3 cs3 = some s4) :
    ∃ l1 l2, s1.label_at p1 = some l1 ∧ s3.label_at p2 = some l2
      ∧ l1 ≠ l2 ∧ p1 ≠ p2
      ∧ s2.label_at p1 = some l1 ∧ s3.label_at p1 = some l1
      ∧ s4.label_at p1 = some l1 ∧ s4.label_at p2 = some l2 := by
  obtain ⟨_, hl1, _, _⟩ := cfg_block_init_label_at s0 s1 d1 p1 hb1
  obtain ⟨hnone2, hl2, _, hold2⟩ := cfg_block_init_label_at s2 s3 d2 p2 hb2
  have hl1s2 := cfg_run_label_at cs2 s1 s2 p1 _ hl1 h1
  have hinv2 : labels_below_counter s2 :=
    cfg_run_labels_below_counter cs2 s1 s2
      (cfg_step_labels_below_counter s0 s1 (cfg_call.block_init d1)
        (cfg_run_labels_below_counter cs1 cfg_init s0 labels_below_counter_init h0)
        (by simp [cfg_step, hb1]))
      h1
  have hp : p1 ≠ p2 := by
    intro e
    rw [e, hnone2] at hl1s2
    cases hl1s2
  have hl1s3 : s3.label_at p1 = some (mklabel s0.label_counter) := by
    rw [hold2 p1 hp]
    exact hl1s2
  refine ⟨_, _, hl1, hl2, ?_, hp, hl1s2, hl1s3,
    cfg_run_label_at cs3 s3 s4 p1 _ hl1s3 h2, cfg_run_label_at cs3 s3 s4 p2 _ hl2 h2⟩
  intro e
  obtain ⟨k, hk, hkl⟩ := hinv2 p1 _ hl1s2
  have hk0 : s0.label_counter = k := mklabel_injective _ _ hkl
  have hk2 : s0.label_counter = s2.label_counter := mklabel_injective _ _ e
  omega

/-- Example: two decls, a block on each with an append in between; the
labels are `.L0` and `.L1`. -/
theorem block_labels_unique_witness :
    ∃ s4 : cfg_state,
      cfg_run cfg_init
        [cfg_call.create, cfg_call.create, cfg_call.block_init 0,
         cfg_call.ir_append 0 (example_op 1 2), cfg_call.block_init 1,
         cfg_call.ir_append 1 (example_op 3 4)] = some s4
      ∧ ∃ l1 l2, s4.label_at 0 = some l1 ∧ s4.label_at 1 = some l2 ∧ l1 ≠ l2 :=
  ⟨_, rfl,
    match block_labels_unique [cfg_call.create, cfg_call.create]
        [cfg_call.ir_append 0 (example_op 1 2)] [cfg_call.ir_append 1 (example_op 3 4)]
        0 1 0 1 _ _ _ _ _ rfl rfl rfl rfl rfl with
    | ⟨l1, l2, _, _, hne, _, _, _, h1, h2⟩ => ⟨l1, l2, h1, h2, hne⟩⟩

end Lacc
